import Mathlib

/-!
Shallow embedding of the indexify scheduler core:
the task allocator (`src/server/processor/src/task_allocator.rs`) and the
system-task replay driver (`src/server/src/system_tasks.rs`), together with
theorems checking the specification's claims about them.

Rust maps (`im::HashMap`, `HashMap`) are embedded as association lists with a
first-match lookup; `VecDeque`/`Vector` values are Lean lists; the random
executor pick (`SliceRandom::choose` with `thread_rng`) is embedded as a
deterministic pick driven by an oracle of natural numbers, quantified over in
every theorem so that all possible random choices are covered.
-/

set_option autoImplicit false

namespace Indexify

/-- Association-list lookup with decidable equality: first entry whose key
equals `k`, mirroring Rust map `get`. -/
def alist_get {α : Type} {β : Type} [DecidableEq α] : List (α × β) → α → Option β
  | [], _ => none
  | (k₁, v) :: rest, k => if k₁ = k then some v else alist_get rest k

/-- Association-list update mirroring Rust `entry(k).or_default()` followed by a
mutation `f`: the first entry with key `k` has its value replaced by `f v`;
when `k` is absent, `(k, f d)` is appended. -/
def alist_upsert {α : Type} {β : Type} [DecidableEq α] (m : List (α × β)) (k : α) (f : β → β) (d : β) :
    List (α × β) :=
  match m with
  | [] => [(k, f d)]
  | (k₁, v) :: rest => if k₁ = k then (k₁, f v) :: rest else (k₁, v) :: alist_upsert rest k f d

/-- Removal of the first occurrence of an element, mirroring `BTreeSet::remove`
(a set holds at most one occurrence). -/
def remove_first {α : Type} [DecidableEq α] : List α → α → List α
  | [], _ => []
  | x :: xs, a => if x = a then xs else x :: remove_first xs a

/-- Executor identifiers are opaque strings (`ExecutorId` newtype over `String`
in `data_model`). -/
abbrev ExecutorId := String

/-- FunctionURI from `data_model`, as consumed by `func_matches`: namespace,
graph name, function name and an optional version. Versions are embedded as
naturals. -/
structure FunctionURI where
  namespace_ : String
  compute_graph_name : String
  compute_fn_name : String
  version : Option Nat
deriving DecidableEq

/-- ExecutorMetadata as consumed by the allocator: an id and an optional
function allowlist. -/
structure ExecutorMetadata where
  id : ExecutorId
  function_allowlist : Option (List FunctionURI)
deriving DecidableEq

/-- Task status, as used by the allocator (`TaskStatus::{Pending, Running}`;
other variants are irrelevant here and collapsed into `Completed`). -/
inductive TaskStatus
  | Pending
  | Running
  | Completed
deriving DecidableEq

/-- Task outcome. Modelled from the spec: `outcome {Unknown, Success, Failure}`
with an `is_terminal` predicate (the `data_model` crate is outside the core
sources). -/
inductive TaskOutcome
  | Unknown
  | Success
  | Failure
deriving DecidableEq

/-- Terminality of an outcome. Modelled from the spec: success and failure are
terminal, `Unknown` is not. -/
def TaskOutcome.is_terminal : TaskOutcome → Bool
  | .Unknown => false
  | .Success => true
  | .Failure => true

/-- Task, with the fields the allocator reads and writes. -/
structure Task where
  id : String
  namespace_ : String
  compute_graph_name : String
  compute_fn_name : String
  invocation_id : String
  graph_version : Nat
  status : TaskStatus
  outcome : TaskOutcome
deriving DecidableEq

/-- Primary key of a task in the `tasks` index. Modelled from the spec: an
injective key derived from the identifying fields (its exact format in
`data_model` is immaterial to the claims; only consistency with
`Allocation.task_key` matters). -/
def Task.key (t : Task) : String :=
  t.namespace_ ++ "|" ++ t.compute_graph_name ++ "|" ++ t.invocation_id ++ "|" ++
    t.compute_fn_name ++ "|" ++ t.id

/-- Key of the compute-graph version a task runs under. Modelled from the
spec: derived from namespace, graph name and the task's graph version. -/
def Task.key_compute_graph_version (t : Task) : String :=
  t.namespace_ ++ "|" ++ t.compute_graph_name ++ "|" ++ toString t.graph_version

/-- Allocation: a binding of a task to an executor, with the fields set by
`AllocationBuilder` in `allocate_task`. -/
structure Allocation where
  namespace_ : String
  compute_graph : String
  compute_fn : String
  invocation_id : String
  task_id : String
  executor_id : ExecutorId
deriving DecidableEq

/-- Task key recovered from an allocation, consistent with `Task.key` for the
task the allocation was built from. -/
def Allocation.task_key (a : Allocation) : String :=
  a.namespace_ ++ "|" ++ a.compute_graph ++ "|" ++ a.invocation_id ++ "|" ++
    a.compute_fn ++ "|" ++ a.task_id

/-- Graph node, as consumed by `filter_executors` (only its name is read). -/
structure Node where
  name : String
deriving DecidableEq

/-- ComputeGraphVersion: identity of a graph version plus its node map. -/
structure ComputeGraphVersion where
  namespace_ : String
  compute_graph_name : String
  version : Nat
  nodes : List (String × Node)
deriving DecidableEq

/-- Handle in the unallocated-task secondary index
(`state_store::in_memory_state::UnallocatedTaskId`); it carries the task key. -/
structure UnallocatedTaskId where
  task_key : String
deriving DecidableEq

/-- Construction of an `UnallocatedTaskId` from a task
(`UnallocatedTaskId::new(&task)`). -/
def UnallocatedTaskId.new (t : Task) : UnallocatedTaskId :=
  ⟨t.key⟩

/-- In-memory scheduler state, with the indexes the allocator reads and
mutates. -/
structure InMemoryState where
  executors : List (ExecutorId × ExecutorMetadata)
  allocations_by_executor : List (ExecutorId × List Allocation)
  tasks : List (String × Task)
  unallocated_tasks : List UnallocatedTaskId
  compute_graph_versions : List (String × ComputeGraphVersion)
deriving DecidableEq

/-- Change events consumed by the allocator. `Other` stands for every
`ChangeType` variant outside the three the allocator handles. -/
inductive ChangeType
  | ExecutorAdded (id : ExecutorId)
  | ExecutorRemoved (id : ExecutorId)
  | TombStoneExecutor (executor_id : ExecutorId)
  | Other
deriving DecidableEq

/-- Result of a placement pass (`TaskPlacementResult`). -/
structure TaskPlacementResult where
  new_allocations : List Allocation
  remove_allocations : List Allocation
  updated_tasks : List Task
deriving DecidableEq

/-- Delta emitted to the durable state machine (`SchedulerUpdateRequest`); the
allocator always leaves `updated_invocations_states` and `reduction_tasks`
empty, so they are embedded as a unit-valued list and a unit. -/
structure SchedulerUpdateRequest where
  new_allocations : List Allocation
  remove_allocations : List Allocation
  updated_tasks : List Task
  updated_invocations_states : List Unit
  reduction_tasks : Unit
  remove_executors : List ExecutorId
deriving DecidableEq

/-- Maximum number of allocations per executor (`MAX_ALLOCATIONS_PER_EXECUTOR`). -/
def MAX_ALLOCATIONS_PER_EXECUTOR : Nat := 20

/-- Embedding of `func_matches` from `task_allocator.rs`: an allowlist entry matches a node
of a graph version when function name, graph name and namespace agree and the
entry's version (defaulting to the graph's own version) equals the graph's
version. -/
def func_matches (func_uri : FunctionURI) (compute_graph : ComputeGraphVersion) (node : Node) :
    Bool :=
  func_uri.compute_fn_name == node.name &&
    func_uri.compute_graph_name == compute_graph.compute_graph_name &&
    (func_uri.version.getD compute_graph.version == compute_graph.version) &&
    func_uri.namespace_ == compute_graph.namespace_

/-- Embedding of `filter_executors`: keep, in order, the id of every executor that either
declares no allowlist or has some allowlist entry matching the node. (The Rust
function returns `Result` but has no error path; the wrapping is dropped.) -/
def filter_executors (compute_graph : ComputeGraphVersion) (node : Node)
    (executors : List ExecutorMetadata) : List ExecutorId :=
  executors.filterMap (fun executor =>
    match executor.function_allowlist with
    | some allowlist =>
        if allowlist.any (fun func_uri => func_matches func_uri compute_graph node) then
          some executor.id
        else
          none
    | none => some executor.id)

/-- Oracle-driven embedding of `SliceRandom::choose`: `none` on an empty list,
otherwise the element at index `rng % length`. Quantifying over `rng` covers
every possible random pick. -/
def choose {α : Type} (rng : Nat) (xs : List α) : Option α :=
  xs.get? (rng % xs.length)

/-- Embedding of `allocate_task`: resolve the graph version and node of the task (each
missing lookup is an error), filter the capacity-eligible executors through the
allowlist, and pick one at random; an empty filtered set yields no allocation
(not an error). -/
def allocate_task (task : Task) (indexes : InMemoryState)
    (executors : List ExecutorMetadata) (rng : Nat) : Except String (Option Allocation) :=
  match alist_get indexes.compute_graph_versions task.key_compute_graph_version with
  | none => .error "compute graph not found"
  | some compute_graph_version =>
    match alist_get compute_graph_version.nodes task.compute_fn_name with
    | none => .error "compute fn not found"
    | some compute_fn =>
      let filtered_executors := filter_executors compute_graph_version compute_fn executors
      match choose rng filtered_executors with
      | some executor_id =>
          .ok (some
            { namespace_ := task.namespace_
              compute_graph := task.compute_graph_name
              compute_fn := task.compute_fn_name
              invocation_id := task.invocation_id
              task_id := task.id
              executor_id := executor_id })
      | none => .ok none

/-- Allocation count of an executor key in the `allocations_by_executor`
index (`allocations.map_or(0, |allocs| allocs.len())`). -/
def alloc_count (indexes : InMemoryState) (k : ExecutorId) : Nat :=
  ((alist_get indexes.allocations_by_executor k).map List.length).getD 0

/-- Executors with allocation capacity: entries of the executor map whose
current allocation count is strictly below `MAX_ALLOCATIONS_PER_EXECUTOR`. -/
def capacity_eligible (indexes : InMemoryState) : List ExecutorMetadata :=
  (indexes.executors.filter
      (fun kv => decide (alloc_count indexes kv.1 < MAX_ALLOCATIONS_PER_EXECUTOR))).map
    Prod.snd

/-- State mutation performed on a successful allocation: append the allocation
to the chosen executor's queue, store the (now Running) task, and drop its
unallocated-index handle. -/
def apply_allocation (indexes : InMemoryState) (task : Task) (allocation : Allocation) :
    InMemoryState :=
  { indexes with
    allocations_by_executor :=
      alist_upsert indexes.allocations_by_executor allocation.executor_id
        (fun l => l ++ [allocation]) []
    tasks := alist_upsert indexes.tasks task.key (fun _ => task) task
    unallocated_tasks := remove_first indexes.unallocated_tasks (UnallocatedTaskId.new task) }

/-- Main loop of `schedule_tasks`: skip terminal tasks, break when no executor
has capacity, otherwise try `allocate_task`; a success mutates the indexes and
records the allocation and the updated task, a `None` or an error skips the
task and continues. One oracle value is consumed per `allocate_task` call. -/
def schedule_tasks_loop :
    List Task → List Nat → InMemoryState → List Allocation → List Task →
      InMemoryState × List Allocation × List Task
  | [], _, indexes, allocations, updated_tasks => (indexes, allocations, updated_tasks)
  | task :: rest, rngs, indexes, allocations, updated_tasks =>
    if task.outcome.is_terminal then
      schedule_tasks_loop rest rngs indexes allocations updated_tasks
    else
      let executors := capacity_eligible indexes
      if executors.isEmpty then
        (indexes, allocations, updated_tasks)
      else
        match allocate_task task indexes executors (rngs.headD 0) with
        | .ok (some allocation) =>
            let running_task := { task with status := TaskStatus.Running }
            schedule_tasks_loop rest rngs.tail
              (apply_allocation indexes running_task allocation)
              (allocations ++ [allocation]) (updated_tasks ++ [running_task])
        | .ok none => schedule_tasks_loop rest rngs.tail indexes allocations updated_tasks
        | .error _ => schedule_tasks_loop rest rngs.tail indexes allocations updated_tasks

/-- Embedding of `schedule_tasks`: empty executor map yields an empty placement result,
otherwise the loop runs over the given tasks. All paths return `Ok`. -/
def schedule_tasks (tasks : List Task) (indexes : InMemoryState) (rngs : List Nat) :
    Except String (InMemoryState × TaskPlacementResult) :=
  if indexes.executors.isEmpty then
    .ok (indexes, { new_allocations := [], remove_allocations := [], updated_tasks := [] })
  else
    let r := schedule_tasks_loop tasks rngs indexes [] []
    .ok (r.1,
      { new_allocations := r.2.1, remove_allocations := [], updated_tasks := r.2.2 })

/-- Resolution of the unallocated-task-id snapshot to tasks: each id is looked
up in the task index and missing tasks are (logged and) skipped. -/
def resolved_tasks (indexes : InMemoryState) : List Task :=
  indexes.unallocated_tasks.filterMap
    (fun unallocated_task_id => alist_get indexes.tasks unallocated_task_id.task_key)

/-- Embedding of `allocate`: resolve the snapshot of unallocated task ids to tasks (missing
tasks are logged and skipped), return an empty result when none remain,
otherwise schedule. -/
def allocate (indexes : InMemoryState) (rngs : List Nat) :
    Except String (InMemoryState × TaskPlacementResult) :=
  let tasks := resolved_tasks indexes
  if tasks.isEmpty then
    .ok (indexes, { new_allocations := [], remove_allocations := [], updated_tasks := [] })
  else
    schedule_tasks tasks indexes rngs

/-- Embedding of `TaskAllocationProcessor::invoke`: dispatch on the change type. Executor
added/removed run the allocation pass; tombstone reclaims the executor's
allocations without reallocating; everything else is an error. -/
def invoke (change : ChangeType) (indexes : InMemoryState) (rngs : List Nat) :
    Except String (InMemoryState × SchedulerUpdateRequest) :=
  match change with
  | ChangeType.ExecutorAdded _ | ChangeType.ExecutorRemoved _ =>
    match allocate indexes rngs with
    | .error e => .error e
    | .ok (indexes', r) =>
      .ok (indexes',
        { new_allocations := r.new_allocations
          remove_allocations := r.remove_allocations
          updated_tasks := r.updated_tasks
          updated_invocations_states := []
          reduction_tasks := ()
          remove_executors := [] })
  | ChangeType.TombStoneExecutor executor_id =>
    let allocations := (alist_get indexes.allocations_by_executor executor_id).getD []
    .ok (indexes,
      { new_allocations := []
        remove_allocations := allocations
        updated_tasks := allocations.filterMap (fun allocation =>
          (alist_get indexes.tasks allocation.task_key).map
            (fun t => { t with status := TaskStatus.Pending }))
        updated_invocations_states := []
        reduction_tasks := ()
        remove_executors := [executor_id] })
  | ChangeType.Other => .error "unhandled change type"

/-- Maximum number of pending system tasks (`MAX_PENDING_TASKS`). -/
def MAX_PENDING_TASKS : Nat := 10

/-- SystemTask from `data_model`, with the fields the replay driver reads. -/
structure SystemTask where
  namespace_ : String
  compute_graph_name : String
  graph_version : Nat
  restart_key : Option String
  num_running_invocations : Nat
  waiting_for_running_invocations : Bool
deriving DecidableEq

/-- An invocation as listed by the state store (only the id is read). -/
structure Invocation where
  id : String
deriving DecidableEq

/-- Write payloads the replay driver emits to the state store. -/
inductive WritePayload
  | ReplayInvocations (namespace_ : String) (compute_graph_name : String)
      (graph_version : Nat) (invocation_ids : List String) (restart_key : Option String)
  | RemoveSystemTask (namespace_ : String) (compute_graph_name : String)
  | UpdateSystemTask (namespace_ : String) (compute_graph_name : String)
      (waiting_for_running_invocations : Bool)
deriving DecidableEq

/-- Snapshot of the state-store reads one driver iteration performs. Modelled
from the spec: the store is an external collaborator providing
`get_system_tasks(limit)` (here its item list; `run` takes only the first),
`get_pending_system_tasks()`, `list_invocations(ns, graph, restart_key, limit)`
and `get_system_task(ns, graph)`. -/
structure StateStore where
  system_tasks : List SystemTask
  pending_system_tasks : Nat
  list_invocations : String → String → Option String → Nat → List Invocation × Option String
  get_system_task : String → String → Option SystemTask

/-- Checked unsigned subtraction: `usize` subtraction in Rust panics on
underflow (in a debug build), so the embedding makes underflow an explicit
`none`. -/
def checked_sub (a b : Nat) : Option Nat :=
  if b ≤ a then some (a - b) else none

/-- Embedding of `queue_invocations`: list invocations from the task's restart key, bounded
by `MAX_PENDING_TASKS - pending_tasks`, emit one `ReplayInvocations` write
carrying the ids and the next restart key, and report whether the listing was
exhausted (`restart_key.is_none()`). `none` models the underflow panic of the
subtraction. -/
def queue_invocations (store : StateStore) (task : SystemTask) (pending_tasks : Nat) :
    Option (List WritePayload × Bool) :=
  match checked_sub MAX_PENDING_TASKS pending_tasks with
  | none => none
  | some limit =>
    let r := store.list_invocations task.namespace_ task.compute_graph_name task.restart_key limit
    some
      ([WritePayload.ReplayInvocations task.namespace_ task.compute_graph_name
          task.graph_version (r.1.map Invocation.id) r.2],
        r.2.isNone)

/-- Embedding of `handle_completion`: re-read the system task; absent is a no-op; zero
running invocations emits `RemoveSystemTask`; otherwise the
`waiting_for_running_invocations` flag is set once and re-entry is a no-op. -/
def handle_completion (store : StateStore) (namespace_ : String) (compute_graph_name : String) :
    List WritePayload :=
  match store.get_system_task namespace_ compute_graph_name with
  | some task =>
    if task.num_running_invocations == 0 then
      [WritePayload.RemoveSystemTask task.namespace_ task.compute_graph_name]
    else
      if !task.waiting_for_running_invocations then
        [WritePayload.UpdateSystemTask task.namespace_ task.compute_graph_name true]
      else
        []
  | none => []

/-- Embedding of `SystemTasksExecutor::run`, one iteration: take the first system task (if
any); a task already waiting for its running invocations goes straight to
completion handling; otherwise the pending count gates queueing
(backpressure), and exhaustion of the invocation listing triggers completion
handling in the same iteration. The result is the list of writes emitted, in
order; `none` models a panic inside `queue_invocations`. -/
def run (store : StateStore) : Option (List WritePayload) :=
  match store.system_tasks.head? with
  | some task =>
    if task.waiting_for_running_invocations then
      some (handle_completion store task.namespace_ task.compute_graph_name)
    else
      let pending_tasks := store.pending_system_tasks
      if pending_tasks ≥ MAX_PENDING_TASKS then
        some []
      else
        match queue_invocations store task pending_tasks with
        | none => none
        | some (writes, all_queued) =>
          if all_queued then
            some (writes ++ handle_completion store task.namespace_ task.compute_graph_name)
          else
            some writes
  | none => some []

/-- Number of invocation ids carried by `ReplayInvocations` writes in a list
of emitted writes. -/
def replay_invocation_count : List WritePayload → Nat
  | [] => 0
  | WritePayload.ReplayInvocations _ _ _ invocation_ids _ :: rest =>
      invocation_ids.length + replay_invocation_count rest
  | _ :: rest => replay_invocation_count rest

/-! ### Helper lemmas -/

theorem alist_get_upsert_self {α β : Type} [DecidableEq α] (m : List (α × β)) (k : α)
    (f : β → β) (d : β) :
    alist_get (alist_upsert m k f d) k = some (f ((alist_get m k).getD d)) := by
  induction m with
  | nil => simp [alist_upsert, alist_get]
  | cons hd tl ih =>
    obtain ⟨k₁, v⟩ := hd
    by_cases hk : k₁ = k
    · subst hk
      simp [alist_upsert, alist_get]
    · simp [alist_upsert, alist_get, hk, ih]

theorem alist_get_upsert_ne {α β : Type} [DecidableEq α] (m : List (α × β)) (k k' : α)
    (f : β → β) (d : β) (hne : k' ≠ k) :
    alist_get (alist_upsert m k f d) k' = alist_get m k' := by
  induction m with
  | nil => simp [alist_upsert, alist_get, Ne.symm hne]
  | cons hd tl ih =>
    obtain ⟨k₁, v⟩ := hd
    by_cases hk : k₁ = k
    · subst hk
      simp [alist_upsert, alist_get, Ne.symm hne]
    · simp [alist_upsert, alist_get, hk, ih]

theorem choose_mem {α : Type} {rng : Nat} {xs : List α} {x : α} (h : choose rng xs = some x) :
    x ∈ xs := by
  exact List.get?_mem h

theorem mem_capacity_eligible {indexes : InMemoryState} {m : ExecutorMetadata}
    (h : m ∈ capacity_eligible indexes) :
    ∃ k, (k, m) ∈ indexes.executors ∧ alloc_count indexes k < MAX_ALLOCATIONS_PER_EXECUTOR := by
  unfold capacity_eligible at h
  rw [List.mem_map] at h
  obtain ⟨kv, hkv, hsnd⟩ := h
  rw [List.mem_filter] at hkv
  obtain ⟨hmem, hlt⟩ := hkv
  refine ⟨kv.1, ?_, by simpa using hlt⟩
  have : kv = (kv.1, m) := by
    obtain ⟨a, b⟩ := kv
    simp at hsnd
    simp [hsnd]
  rw [← this]
  exact hmem

theorem mem_filter_executors {compute_graph : ComputeGraphVersion} {node : Node}
    {executors : List ExecutorMetadata} {eid : ExecutorId}
    (h : eid ∈ filter_executors compute_graph node executors) :
    ∃ m ∈ executors, m.id = eid ∧
      (m.function_allowlist = none ∨
        ∃ allowlist, m.function_allowlist = some allowlist ∧
          ∃ u ∈ allowlist, func_matches u compute_graph node = true) := by
  unfold filter_executors at h
  rw [List.mem_filterMap] at h
  obtain ⟨m, hm, hf⟩ := h
  refine ⟨m, hm, ?_⟩
  cases hal : m.function_allowlist with
  | none =>
    rw [hal] at hf
    replace hf : some m.id = some eid := hf
    simp only [Option.some.injEq] at hf
    exact ⟨hf, Or.inl rfl⟩
  | some allowlist =>
    rw [hal] at hf
    replace hf :
        (if allowlist.any (fun func_uri => func_matches func_uri compute_graph node) then
            some m.id
          else
            none) = some eid := hf
    by_cases hany :
        allowlist.any (fun func_uri => func_matches func_uri compute_graph node) = true
    · rw [if_pos hany] at hf
      simp only [Option.some.injEq] at hf
      rw [List.any_eq_true] at hany
      obtain ⟨u, hu, hmatch⟩ := hany
      exact ⟨hf, Or.inr ⟨allowlist, rfl, u, hu, hmatch⟩⟩
    · rw [if_neg hany] at hf
      exact absurd hf (by simp)

theorem allocate_task_ok_some {task : Task} {indexes : InMemoryState}
    {executors : List ExecutorMetadata} {rng : Nat} {a : Allocation}
    (h : allocate_task task indexes executors rng = .ok (some a)) :
    ∃ compute_graph_version node,
      alist_get indexes.compute_graph_versions task.key_compute_graph_version =
        some compute_graph_version ∧
      alist_get compute_graph_version.nodes task.compute_fn_name = some node ∧
      a = { namespace_ := task.namespace_
            compute_graph := task.compute_graph_name
            compute_fn := task.compute_fn_name
            invocation_id := task.invocation_id
            task_id := task.id
            executor_id := a.executor_id } ∧
      ∃ m ∈ executors, m.id = a.executor_id ∧
        (m.function_allowlist = none ∨
          ∃ allowlist, m.function_allowlist = some allowlist ∧
            ∃ u ∈ allowlist, func_matches u compute_graph_version node = true) := by
  unfold allocate_task at h
  cases hcgv : alist_get indexes.compute_graph_versions task.key_compute_graph_version with
  | none => rw [hcgv] at h; exact absurd h (by simp)
  | some compute_graph_version =>
    rw [hcgv] at h
    replace h :
        (match alist_get compute_graph_version.nodes task.compute_fn_name with
          | none => (Except.error "compute fn not found" : Except String (Option Allocation))
          | some compute_fn =>
            match choose rng (filter_executors compute_graph_version compute_fn executors) with
            | some executor_id =>
              Except.ok (some
                { namespace_ := task.namespace_
                  compute_graph := task.compute_graph_name
                  compute_fn := task.compute_fn_name
                  invocation_id := task.invocation_id
                  task_id := task.id
                  executor_id := executor_id })
            | none => Except.ok none) = Except.ok (some a) := h
    cases hnode : alist_get compute_graph_version.nodes task.compute_fn_name with
    | none => rw [hnode] at h; exact absurd h (by simp)
    | some node =>
      rw [hnode] at h
      replace h :
          (match choose rng (filter_executors compute_graph_version node executors) with
            | some executor_id =>
              Except.ok (some
                { namespace_ := task.namespace_
                  compute_graph := task.compute_graph_name
                  compute_fn := task.compute_fn_name
                  invocation_id := task.invocation_id
                  task_id := task.id
                  executor_id := executor_id })
            | none => (Except.ok none : Except String (Option Allocation))) =
            Except.ok (some a) := h
      cases hch : choose rng (filter_executors compute_graph_version node executors) with
      | none => rw [hch] at h; exact absurd h (by simp)
      | some eid =>
        rw [hch] at h
        replace h :
            (Except.ok (some
              { namespace_ := task.namespace_
                compute_graph := task.compute_graph_name
                compute_fn := task.compute_fn_name
                invocation_id := task.invocation_id
                task_id := task.id
                executor_id := eid }) : Except String (Option Allocation)) =
              Except.ok (some a) := h
        simp only [Except.ok.injEq, Option.some.injEq] at h
        have heid : a.executor_id = eid := by rw [← h]
        obtain ⟨m, hm, hid, hallow⟩ := mem_filter_executors (choose_mem hch)
        refine ⟨compute_graph_version, node, rfl, hnode, ?_, m, hm, ?_, hallow⟩
        · rw [← h]
        · rw [hid, heid]

theorem schedule_tasks_loop_cons (task : Task) (rest : List Task) (rngs : List Nat)
    (indexes : InMemoryState) (acc : List Allocation) (upd : List Task) :
    schedule_tasks_loop (task :: rest) rngs indexes acc upd =
      if task.outcome.is_terminal then
        schedule_tasks_loop rest rngs indexes acc upd
      else if (capacity_eligible indexes).isEmpty then
        (indexes, acc, upd)
      else
        match allocate_task task indexes (capacity_eligible indexes) (rngs.headD 0) with
        | .ok (some allocation) =>
            schedule_tasks_loop rest rngs.tail
              (apply_allocation indexes { task with status := TaskStatus.Running } allocation)
              (acc ++ [allocation]) (upd ++ [{ task with status := TaskStatus.Running }])
        | .ok none => schedule_tasks_loop rest rngs.tail indexes acc upd
        | .error _ => schedule_tasks_loop rest rngs.tail indexes acc upd := rfl

theorem schedule_tasks_loop_fields (tasks : List Task) (rngs : List Nat)
    (indexes : InMemoryState) (acc : List Allocation) (upd : List Task) :
    (schedule_tasks_loop tasks rngs indexes acc upd).1.executors = indexes.executors ∧
      (schedule_tasks_loop tasks rngs indexes acc upd).1.compute_graph_versions =
        indexes.compute_graph_versions := by
  induction tasks generalizing rngs indexes acc upd with
  | nil => exact ⟨rfl, rfl⟩
  | cons task rest ih =>
    rw [schedule_tasks_loop_cons]
    by_cases hterm : task.outcome.is_terminal = true
    · rw [if_pos hterm]
      exact ih rngs indexes acc upd
    · rw [if_neg hterm]
      by_cases hemp : (capacity_eligible indexes).isEmpty = true
      · rw [if_pos hemp]
        exact ⟨rfl, rfl⟩
      · rw [if_neg hemp]
        cases hat : allocate_task task indexes (capacity_eligible indexes) (rngs.headD 0) with
        | error e => exact ih rngs.tail indexes acc upd
        | ok o =>
          cases o with
          | none => exact ih rngs.tail indexes acc upd
          | some allocation =>
            exact ih rngs.tail
              (apply_allocation indexes { task with status := TaskStatus.Running } allocation)
              (acc ++ [allocation]) (upd ++ [{ task with status := TaskStatus.Running }])

theorem schedule_tasks_loop_saturated (tasks : List Task) (rngs : List Nat)
    (indexes : InMemoryState) (acc : List Allocation) (upd : List Task)
    (hsat : capacity_eligible indexes = []) :
    schedule_tasks_loop tasks rngs indexes acc upd = (indexes, acc, upd) := by
  induction tasks generalizing rngs with
  | nil => rfl
  | cons task rest ih =>
    rw [schedule_tasks_loop_cons]
    by_cases hterm : task.outcome.is_terminal = true
    · rw [if_pos hterm]
      exact ih rngs
    · rw [if_neg hterm, if_pos (by simp [hsat])]

theorem alloc_count_apply_allocation_self (indexes : InMemoryState) (t : Task) (a : Allocation) :
    alloc_count (apply_allocation indexes t a) a.executor_id =
      alloc_count indexes a.executor_id + 1 := by
  simp only [alloc_count, apply_allocation]
  rw [alist_get_upsert_self]
  cases halist : alist_get indexes.allocations_by_executor a.executor_id <;> simp [halist]

theorem alloc_count_apply_allocation_ne (indexes : InMemoryState) (t : Task) (a : Allocation)
    (e : ExecutorId) (hne : e ≠ a.executor_id) :
    alloc_count (apply_allocation indexes t a) e = alloc_count indexes e := by
  simp only [alloc_count, apply_allocation]
  rw [alist_get_upsert_ne _ _ _ _ _ hne]

theorem chosen_executor_count_lt {task : Task} {indexes : InMemoryState} {rng : Nat}
    {a : Allocation}
    (hwf : ∀ k m, (k, m) ∈ indexes.executors → m.id = k)
    (hat : allocate_task task indexes (capacity_eligible indexes) rng = .ok (some a)) :
    alloc_count indexes a.executor_id < MAX_ALLOCATIONS_PER_EXECUTOR := by
  obtain ⟨cgv, node, hcgv, hnode, ha, m, hm, hid, hallow⟩ := allocate_task_ok_some hat
  obtain ⟨k, hk, hlt⟩ := mem_capacity_eligible hm
  have : a.executor_id = k := by rw [← hid, hwf k m hk]
  rw [this]
  exact hlt

theorem schedule_tasks_loop_capacity (tasks : List Task) (rngs : List Nat)
    (indexes : InMemoryState) (acc : List Allocation) (upd : List Task)
    (hwf : ∀ k m, (k, m) ∈ indexes.executors → m.id = k)
    (hcap : ∀ e, alloc_count indexes e ≤ MAX_ALLOCATIONS_PER_EXECUTOR) :
    ∀ e, alloc_count (schedule_tasks_loop tasks rngs indexes acc upd).1 e ≤
      MAX_ALLOCATIONS_PER_EXECUTOR := by
  induction tasks generalizing rngs indexes acc upd with
  | nil => exact hcap
  | cons task rest ih =>
    rw [schedule_tasks_loop_cons]
    by_cases hterm : task.outcome.is_terminal = true
    · rw [if_pos hterm]
      exact ih rngs indexes acc upd hwf hcap
    · rw [if_neg hterm]
      by_cases hemp : (capacity_eligible indexes).isEmpty = true
      · rw [if_pos hemp]
        exact hcap
      · rw [if_neg hemp]
        cases hat : allocate_task task indexes (capacity_eligible indexes) (rngs.headD 0) with
        | error e => exact ih rngs.tail indexes acc upd hwf hcap
        | ok o =>
          cases o with
          | none => exact ih rngs.tail indexes acc upd hwf hcap
          | some allocation =>
            apply ih
            · intro k m hm
              exact hwf k m hm
            · intro e
              by_cases he : e = allocation.executor_id
              · subst he
                rw [alloc_count_apply_allocation_self]
                exact Nat.succ_le_of_lt (chosen_executor_count_lt hwf hat)
              · rw [alloc_count_apply_allocation_ne _ _ _ _ he]
                exact hcap e

/-- Allowlist matching rule stated as the specification words it (§4.1), as a
proposition to be compared with the code's `func_matches`. -/
def FuncMatchesSpec (u : FunctionURI) (graph : ComputeGraphVersion) (node : Node) : Prop :=
  u.compute_fn_name = node.name ∧
    u.compute_graph_name = graph.compute_graph_name ∧
    u.namespace_ = graph.namespace_ ∧
    u.version.getD graph.version = graph.version

theorem func_matches_iff_spec (u : FunctionURI) (graph : ComputeGraphVersion) (node : Node) :
    func_matches u graph node = true ↔ FuncMatchesSpec u graph node := by
  simp only [func_matches, FuncMatchesSpec, Bool.and_eq_true, beq_iff_eq]
  tauto

/-- Allowlist conformance of an allocation against the specific task it was
built for: the task's five identifying fields are the ones copied into the
allocation, the allocation's executor appears in the executor map `E`, `graph`
is the ComputeGraphVersion registered in `G` for that task's
`key_compute_graph_version` (so at the task's own graph version), `node` is
that graph's node for the task's function, and either the executor declares no
allowlist or some entry matches that node under the spec's §4.1 rule. -/
def AllocMatchesTask (E : List (ExecutorId × ExecutorMetadata))
    (G : List (String × ComputeGraphVersion)) (task : Task) (a : Allocation) : Prop :=
  task.namespace_ = a.namespace_ ∧
  task.compute_graph_name = a.compute_graph ∧
  task.compute_fn_name = a.compute_fn ∧
  task.invocation_id = a.invocation_id ∧
  task.id = a.task_id ∧
  ∃ (k : ExecutorId) (m : ExecutorMetadata) (graph : ComputeGraphVersion) (node : Node),
    (k, m) ∈ E ∧ m.id = a.executor_id ∧
    alist_get G task.key_compute_graph_version = some graph ∧
    alist_get graph.nodes task.compute_fn_name = some node ∧
    (m.function_allowlist = none ∨
      ∃ allowlist, m.function_allowlist = some allowlist ∧
        ∃ u ∈ allowlist, FuncMatchesSpec u graph node)

theorem allocate_task_alloc_ok {task : Task} {indexes : InMemoryState} {rng : Nat}
    {a : Allocation}
    (hat : allocate_task task indexes (capacity_eligible indexes) rng = .ok (some a)) :
    AllocMatchesTask indexes.executors indexes.compute_graph_versions task a := by
  obtain ⟨cgv, node, hcgv, hnode, ha, m, hm, hid, hallow⟩ := allocate_task_ok_some hat
  obtain ⟨k, hk, hlt⟩ := mem_capacity_eligible hm
  refine ⟨?_, ?_, ?_, ?_, ?_, k, m, cgv, node, hk, hid, hcgv, hnode, ?_⟩
  · rw [ha]
  · rw [ha]
  · rw [ha]
  · rw [ha]
  · rw [ha]
  · cases hallow with
    | inl hnone => exact Or.inl hnone
    | inr hsome =>
      obtain ⟨allowlist, hal, u, hu, hmatch⟩ := hsome
      exact Or.inr ⟨allowlist, hal, u, hu, (func_matches_iff_spec u cgv node).mp hmatch⟩

theorem schedule_tasks_loop_new_allocations (tasks : List Task) (rngs : List Nat)
    (indexes : InMemoryState) (acc : List Allocation) (upd : List Task) :
    ∀ a ∈ (schedule_tasks_loop tasks rngs indexes acc upd).2.1,
      a ∈ acc ∨ ∃ task ∈ tasks,
        AllocMatchesTask indexes.executors indexes.compute_graph_versions task a := by
  induction tasks generalizing rngs indexes acc upd with
  | nil => exact fun a ha => Or.inl ha
  | cons task rest ih =>
    rw [schedule_tasks_loop_cons]
    by_cases hterm : task.outcome.is_terminal = true
    · rw [if_pos hterm]
      intro a ha
      cases ih rngs indexes acc upd a ha with
      | inl h => exact Or.inl h
      | inr h =>
        obtain ⟨t, ht, hmatch⟩ := h
        exact Or.inr ⟨t, List.mem_cons_of_mem task ht, hmatch⟩
    · rw [if_neg hterm]
      by_cases hemp : (capacity_eligible indexes).isEmpty = true
      · rw [if_pos hemp]
        exact fun a ha => Or.inl ha
      · rw [if_neg hemp]
        cases hat : allocate_task task indexes (capacity_eligible indexes) (rngs.headD 0) with
        | error e =>
          intro a ha
          cases ih rngs.tail indexes acc upd a ha with
          | inl h => exact Or.inl h
          | inr h =>
            obtain ⟨t, ht, hmatch⟩ := h
            exact Or.inr ⟨t, List.mem_cons_of_mem task ht, hmatch⟩
        | ok o =>
          cases o with
          | none =>
            intro a ha
            cases ih rngs.tail indexes acc upd a ha with
            | inl h => exact Or.inl h
            | inr h =>
              obtain ⟨t, ht, hmatch⟩ := h
              exact Or.inr ⟨t, List.mem_cons_of_mem task ht, hmatch⟩
          | some allocation =>
            intro a ha
            have hstep := ih rngs.tail
              (apply_allocation indexes { task with status := TaskStatus.Running } allocation)
              (acc ++ [allocation]) (upd ++ [{ task with status := TaskStatus.Running }]) a ha
            cases hstep with
            | inl hin =>
              rw [List.mem_append] at hin
              cases hin with
              | inl hacc => exact Or.inl hacc
              | inr hone =>
                rw [List.mem_singleton] at hone
                subst hone
                exact Or.inr ⟨task, List.mem_cons_self task rest, allocate_task_alloc_ok hat⟩
            | inr hok =>
              obtain ⟨t, ht, hmatch⟩ := hok
              exact Or.inr ⟨t, List.mem_cons_of_mem task ht, hmatch⟩

theorem schedule_tasks_cases (tasks : List Task) (indexes : InMemoryState) (rngs : List Nat) :
    (indexes.executors = [] ∧
        schedule_tasks tasks indexes rngs =
          .ok (indexes,
            { new_allocations := [], remove_allocations := [], updated_tasks := [] })) ∨
      (indexes.executors ≠ [] ∧
        schedule_tasks tasks indexes rngs =
          .ok ((schedule_tasks_loop tasks rngs indexes [] []).1,
            { new_allocations := (schedule_tasks_loop tasks rngs indexes [] []).2.1
              remove_allocations := []
              updated_tasks := (schedule_tasks_loop tasks rngs indexes [] []).2.2 })) := by
  by_cases hemp : indexes.executors.isEmpty = true
  · exact Or.inl ⟨List.isEmpty_iff.mp hemp, by rw [schedule_tasks, if_pos hemp]⟩
  · refine Or.inr ⟨fun hnil => hemp (by rw [hnil]; rfl), ?_⟩
    rw [schedule_tasks, if_neg hemp]

theorem allocate_cases (indexes : InMemoryState) (rngs : List Nat) :
    (resolved_tasks indexes = [] ∧
        allocate indexes rngs =
          .ok (indexes,
            { new_allocations := [], remove_allocations := [], updated_tasks := [] })) ∨
      (resolved_tasks indexes ≠ [] ∧
        allocate indexes rngs = schedule_tasks (resolved_tasks indexes) indexes rngs) := by
  by_cases hemp : (resolved_tasks indexes).isEmpty = true
  · exact Or.inl ⟨List.isEmpty_iff.mp hemp, by rw [allocate]; exact if_pos hemp⟩
  · refine Or.inr ⟨fun hnil => hemp (by rw [hnil]; rfl), ?_⟩
    rw [allocate]
    exact if_neg hemp

theorem allocate_ok (indexes : InMemoryState) (rngs : List Nat) :
    ∃ indexes' r, allocate indexes rngs = .ok (indexes', r) ∧ r.remove_allocations = [] := by
  cases allocate_cases indexes rngs with
  | inl h => exact ⟨indexes, _, h.2, rfl⟩
  | inr h =>
    cases schedule_tasks_cases (resolved_tasks indexes) indexes rngs with
    | inl hs => exact ⟨indexes, _, by rw [h.2, hs.2], rfl⟩
    | inr hs => exact ⟨_, _, by rw [h.2, hs.2], rfl⟩

/-! ### Characterization lemmas for `invoke` and `run` -/

theorem invoke_added_eq (id : ExecutorId) (indexes : InMemoryState) (rngs : List Nat) :
    invoke (ChangeType.ExecutorAdded id) indexes rngs =
      match allocate indexes rngs with
      | .error e => .error e
      | .ok (indexes', r) =>
        .ok (indexes',
          { new_allocations := r.new_allocations
            remove_allocations := r.remove_allocations
            updated_tasks := r.updated_tasks
            updated_invocations_states := []
            reduction_tasks := ()
            remove_executors := [] }) := rfl

theorem invoke_removed_eq (id : ExecutorId) (indexes : InMemoryState) (rngs : List Nat) :
    invoke (ChangeType.ExecutorRemoved id) indexes rngs =
      match allocate indexes rngs with
      | .error e => .error e
      | .ok (indexes', r) =>
        .ok (indexes',
          { new_allocations := r.new_allocations
            remove_allocations := r.remove_allocations
            updated_tasks := r.updated_tasks
            updated_invocations_states := []
            reduction_tasks := ()
            remove_executors := [] }) := rfl

theorem invoke_tombstone_eq (eid : ExecutorId) (indexes : InMemoryState) (rngs : List Nat) :
    invoke (ChangeType.TombStoneExecutor eid) indexes rngs =
      .ok (indexes,
        { new_allocations := []
          remove_allocations := (alist_get indexes.allocations_by_executor eid).getD []
          updated_tasks := ((alist_get indexes.allocations_by_executor eid).getD []).filterMap
            (fun allocation => (alist_get indexes.tasks allocation.task_key).map
              (fun t => { t with status := TaskStatus.Pending }))
          updated_invocations_states := []
          reduction_tasks := ()
          remove_executors := [eid] }) := rfl

theorem invoke_other_eq (indexes : InMemoryState) (rngs : List Nat) :
    invoke ChangeType.Other indexes rngs = .error "unhandled change type" := rfl

theorem queue_invocations_of_le (store : StateStore) (task : SystemTask) (p : Nat)
    (hp : p ≤ MAX_PENDING_TASKS) :
    queue_invocations store task p =
      some
        ([WritePayload.ReplayInvocations task.namespace_ task.compute_graph_name
            task.graph_version
            ((store.list_invocations task.namespace_ task.compute_graph_name task.restart_key
                (MAX_PENDING_TASKS - p)).1.map Invocation.id)
            (store.list_invocations task.namespace_ task.compute_graph_name task.restart_key
              (MAX_PENDING_TASKS - p)).2],
          (store.list_invocations task.namespace_ task.compute_graph_name task.restart_key
            (MAX_PENDING_TASKS - p)).2.isNone) := by
  unfold queue_invocations checked_sub
  rw [if_pos hp]

theorem run_none_eq (store : StateStore) (hhead : store.system_tasks.head? = none) :
    run store = some [] := by
  unfold run
  rw [hhead]

theorem run_some_eq (store : StateStore) (task : SystemTask)
    (hhead : store.system_tasks.head? = some task) :
    run store =
      if task.waiting_for_running_invocations then
        some (handle_completion store task.namespace_ task.compute_graph_name)
      else if store.pending_system_tasks ≥ MAX_PENDING_TASKS then
        some []
      else
        match queue_invocations store task store.pending_system_tasks with
        | none => none
        | some (writes, all_queued) =>
          if all_queued then
            some (writes ++ handle_completion store task.namespace_ task.compute_graph_name)
          else
            some writes := by
  unfold run
  rw [hhead]

theorem handle_completion_no_replay (store : StateStore) (ns g : String) :
    replay_invocation_count (handle_completion store ns g) = 0 := by
  unfold handle_completion
  split
  · split
    · rfl
    · split
      · rfl
      · rfl
  · rfl

theorem replay_invocation_count_append (xs ys : List WritePayload) :
    replay_invocation_count (xs ++ ys) =
      replay_invocation_count xs + replay_invocation_count ys := by
  induction xs with
  | nil => simp [replay_invocation_count]
  | cons x xs ih =>
    cases x with
    | ReplayInvocations a b c ids d =>
      simp [replay_invocation_count, ih, Nat.add_assoc]
    | RemoveSystemTask a b => simpa [replay_invocation_count] using ih
    | UpdateSystemTask a b c => simpa [replay_invocation_count] using ih

theorem allocate_state_capacity {indexes indexes' : InMemoryState} {rngs : List Nat}
    {r : TaskPlacementResult}
    (hwf : ∀ k m, (k, m) ∈ indexes.executors → m.id = k)
    (hcap : ∀ e, alloc_count indexes e ≤ MAX_ALLOCATIONS_PER_EXECUTOR)
    (h : allocate indexes rngs = .ok (indexes', r)) :
    ∀ e, alloc_count indexes' e ≤ MAX_ALLOCATIONS_PER_EXECUTOR := by
  rcases allocate_cases indexes rngs with ⟨hres, heq⟩ | ⟨hres, heq⟩
  · rw [heq] at h
    simp only [Except.ok.injEq, Prod.mk.injEq] at h
    rw [← h.1]
    exact hcap
  · rw [heq] at h
    rcases schedule_tasks_cases (resolved_tasks indexes) indexes rngs with
      ⟨hnil, heq2⟩ | ⟨hnil, heq2⟩
    · rw [heq2] at h
      simp only [Except.ok.injEq, Prod.mk.injEq] at h
      rw [← h.1]
      exact hcap
    · rw [heq2] at h
      simp only [Except.ok.injEq, Prod.mk.injEq] at h
      rw [← h.1]
      exact schedule_tasks_loop_capacity (resolved_tasks indexes) rngs indexes [] [] hwf hcap

theorem allocate_new_allocations_ok {indexes indexes' : InMemoryState} {rngs : List Nat}
    {r : TaskPlacementResult} (h : allocate indexes rngs = .ok (indexes', r)) :
    ∀ a ∈ r.new_allocations, ∃ task ∈ resolved_tasks indexes,
      AllocMatchesTask indexes.executors indexes.compute_graph_versions task a := by
  rcases allocate_cases indexes rngs with ⟨hres, heq⟩ | ⟨hres, heq⟩
  · rw [heq] at h
    simp only [Except.ok.injEq, Prod.mk.injEq] at h
    rw [← h.2]
    intro a ha
    exact absurd ha (by simp)
  · rw [heq] at h
    rcases schedule_tasks_cases (resolved_tasks indexes) indexes rngs with
      ⟨hnil, heq2⟩ | ⟨hnil, heq2⟩
    · rw [heq2] at h
      simp only [Except.ok.injEq, Prod.mk.injEq] at h
      rw [← h.2]
      intro a ha
      exact absurd ha (by simp)
    · rw [heq2] at h
      simp only [Except.ok.injEq, Prod.mk.injEq] at h
      rw [← h.2]
      intro a ha
      have hmem := schedule_tasks_loop_new_allocations (resolved_tasks indexes) rngs indexes
        [] [] a ha
      cases hmem with
      | inl hnilmem => exact absurd hnilmem (by simp)
      | inr hok => exact hok

/-! ### Claim theorems -/

/-- C1: for every executor `E` and every `SchedulerUpdateRequest` returned by
`invoke`, after applying the returned delta (the in-memory indexes as mutated
by the pass) the number of allocations indexed under `E` is at most
`MAX_ALLOCATIONS_PER_EXECUTOR` (20): within one `schedule_tasks` pass a task
is only assigned to an executor whose current allocation count — counting
allocations accumulated earlier in the same pass, which are appended to
`allocations_by_executor` before the next task is considered — is strictly
below 20. Hypotheses: the executor map is key-consistent and the capacity
invariant holds on entry. -/
theorem C1_invoke_capacity (change : ChangeType) (indexes indexes' : InMemoryState)
    (rngs : List Nat) (req : SchedulerUpdateRequest)
    (hwf : ∀ k m, (k, m) ∈ indexes.executors → m.id = k)
    (hcap : ∀ e, alloc_count indexes e ≤ MAX_ALLOCATIONS_PER_EXECUTOR)
    (h : invoke change indexes rngs = .ok (indexes', req)) :
    ∀ e, alloc_count indexes' e ≤ MAX_ALLOCATIONS_PER_EXECUTOR := by
  cases change with
  | ExecutorAdded id =>
    rw [invoke_added_eq] at h
    cases hal : allocate indexes rngs with
    | error e => rw [hal] at h; exact absurd h (by simp)
    | ok p =>
      obtain ⟨idx₂, r⟩ := p
      rw [hal] at h
      replace h : (Except.ok (idx₂,
          ({ new_allocations := r.new_allocations
             remove_allocations := r.remove_allocations
             updated_tasks := r.updated_tasks
             updated_invocations_states := []
             reduction_tasks := ()
             remove_executors := [] } : SchedulerUpdateRequest)) :
            Except String (InMemoryState × SchedulerUpdateRequest)) = .ok (indexes', req) := h
      simp only [Except.ok.injEq, Prod.mk.injEq] at h
      obtain ⟨h1, h2⟩ := h
      subst h1
      exact allocate_state_capacity hwf hcap hal
  | ExecutorRemoved id =>
    rw [invoke_removed_eq] at h
    cases hal : allocate indexes rngs with
    | error e => rw [hal] at h; exact absurd h (by simp)
    | ok p =>
      obtain ⟨idx₂, r⟩ := p
      rw [hal] at h
      replace h : (Except.ok (idx₂,
          ({ new_allocations := r.new_allocations
             remove_allocations := r.remove_allocations
             updated_tasks := r.updated_tasks
             updated_invocations_states := []
             reduction_tasks := ()
             remove_executors := [] } : SchedulerUpdateRequest)) :
            Except String (InMemoryState × SchedulerUpdateRequest)) = .ok (indexes', req) := h
      simp only [Except.ok.injEq, Prod.mk.injEq] at h
      obtain ⟨h1, h2⟩ := h
      subst h1
      exact allocate_state_capacity hwf hcap hal
  | TombStoneExecutor eid =>
    rw [invoke_tombstone_eq] at h
    simp only [Except.ok.injEq, Prod.mk.injEq] at h
    obtain ⟨h1, h2⟩ := h
    subst h1
    exact hcap
  | Other =>
    rw [invoke_other_eq] at h
    exact absurd h (by simp)

/-- C2: for every state and executor id, `invoke(TombStoneExecutor(E))`
returns `Ok` with a delta whose `remove_allocations` are exactly the
allocations indexed under `E` (allocations with a missing task included),
whose `updated_tasks` are, in order, the found tasks of those allocations set
back to Pending (missing tasks omitted), whose `remove_executors` is `[E]`,
and whose `new_allocations` is empty; every emitted task update is Pending. -/
theorem C2_tombstone (indexes : InMemoryState) (eid : ExecutorId) (rngs : List Nat) :
    ∃ req, invoke (ChangeType.TombStoneExecutor eid) indexes rngs = .ok (indexes, req) ∧
      req.new_allocations = [] ∧
      req.remove_executors = [eid] ∧
      req.remove_allocations = (alist_get indexes.allocations_by_executor eid).getD [] ∧
      req.updated_tasks =
        ((alist_get indexes.allocations_by_executor eid).getD []).filterMap
          (fun allocation => (alist_get indexes.tasks allocation.task_key).map
            (fun t => { t with status := TaskStatus.Pending })) ∧
      (∀ t ∈ req.updated_tasks, t.status = TaskStatus.Pending) := by
  refine ⟨_, invoke_tombstone_eq eid indexes rngs, rfl, rfl, rfl, rfl, ?_⟩
  intro t ht
  rw [List.mem_filterMap] at ht
  obtain ⟨a, ha, hmap⟩ := ht
  cases hg : alist_get indexes.tasks a.task_key with
  | none => rw [hg] at hmap; exact absurd hmap (by simp)
  | some t₀ =>
    rw [hg] at hmap
    simp only [Option.map_some', Option.some.injEq] at hmap
    rw [← hmap]

/-- C3: every allocation produced by the allocator was built for a task `T` of
the pass's unallocated snapshot (`resolved_tasks`), whose identifying fields
it copies, and binds `T` to an executor present in the executor map that
either declares no function allowlist or has some `FunctionURI` matching
`T`'s node — where the graph is the ComputeGraphVersion registered for `T`'s
own `key_compute_graph_version` — under the §4.1 rule (function name, graph
name and namespace equal, and the entry's version, defaulting to the graph's
current version when absent, equal to the graph's version). -/
theorem C3_allowlist_respect (change : ChangeType) (indexes indexes' : InMemoryState)
    (rngs : List Nat) (req : SchedulerUpdateRequest)
    (h : invoke change indexes rngs = .ok (indexes', req)) :
    ∀ a ∈ req.new_allocations, ∃ task ∈ resolved_tasks indexes,
      AllocMatchesTask indexes.executors indexes.compute_graph_versions task a := by
  cases change with
  | ExecutorAdded id =>
    rw [invoke_added_eq] at h
    cases hal : allocate indexes rngs with
    | error e => rw [hal] at h; exact absurd h (by simp)
    | ok p =>
      obtain ⟨idx₂, r⟩ := p
      rw [hal] at h
      replace h : (Except.ok (idx₂,
          ({ new_allocations := r.new_allocations
             remove_allocations := r.remove_allocations
             updated_tasks := r.updated_tasks
             updated_invocations_states := []
             reduction_tasks := ()
             remove_executors := [] } : SchedulerUpdateRequest)) :
            Except String (InMemoryState × SchedulerUpdateRequest)) = .ok (indexes', req) := h
      simp only [Except.ok.injEq, Prod.mk.injEq] at h
      obtain ⟨h1, h2⟩ := h
      rw [← h2]
      exact allocate_new_allocations_ok hal
  | ExecutorRemoved id =>
    rw [invoke_removed_eq] at h
    cases hal : allocate indexes rngs with
    | error e => rw [hal] at h; exact absurd h (by simp)
    | ok p =>
      obtain ⟨idx₂, r⟩ := p
      rw [hal] at h
      replace h : (Except.ok (idx₂,
          ({ new_allocations := r.new_allocations
             remove_allocations := r.remove_allocations
             updated_tasks := r.updated_tasks
             updated_invocations_states := []
             reduction_tasks := ()
             remove_executors := [] } : SchedulerUpdateRequest)) :
            Except String (InMemoryState × SchedulerUpdateRequest)) = .ok (indexes', req) := h
      simp only [Except.ok.injEq, Prod.mk.injEq] at h
      obtain ⟨h1, h2⟩ := h
      rw [← h2]
      exact allocate_new_allocations_ok hal
  | TombStoneExecutor eid =>
    rw [invoke_tombstone_eq] at h
    simp only [Except.ok.injEq, Prod.mk.injEq] at h
    obtain ⟨h1, h2⟩ := h
    rw [← h2]
    intro a ha
    exact absurd ha (by simp)
  | Other =>
    rw [invoke_other_eq] at h
    exact absurd h (by simp)

/-- C5: `invoke` returns an error exactly when the change type is not one of
ExecutorAdded, ExecutorRemoved, TombStoneExecutor (here `ChangeType.Other`
stands for every unhandled variant); and a per-task failure inside the pass
(an `allocate_task` error such as a missing compute-graph version or node)
never aborts: the failing task is skipped and the loop continues with the
remaining tasks. -/
theorem C5_error_iff (change : ChangeType) (indexes : InMemoryState) (rngs : List Nat) :
    ((∃ err, invoke change indexes rngs = .error err) ↔ change = ChangeType.Other) ∧
      (∀ (task : Task) (rest : List Task) (rngs' : List Nat) (idx : InMemoryState)
          (acc : List Allocation) (upd : List Task) (err : String),
        task.outcome.is_terminal = false →
        (capacity_eligible idx).isEmpty = false →
        allocate_task task idx (capacity_eligible idx) (rngs'.headD 0) = .error err →
        schedule_tasks_loop (task :: rest) rngs' idx acc upd =
          schedule_tasks_loop rest rngs'.tail idx acc upd) := by
  constructor
  · constructor
    · rintro ⟨err, herr⟩
      cases change with
      | Other => rfl
      | ExecutorAdded id =>
        obtain ⟨idx₂, r, hal, _⟩ := allocate_ok indexes rngs
        rw [invoke_added_eq, hal] at herr
        exact absurd herr (by simp)
      | ExecutorRemoved id =>
        obtain ⟨idx₂, r, hal, _⟩ := allocate_ok indexes rngs
        rw [invoke_removed_eq, hal] at herr
        exact absurd herr (by simp)
      | TombStoneExecutor eid =>
        rw [invoke_tombstone_eq] at herr
        exact absurd herr (by simp)
    · rintro rfl
      exact ⟨"unhandled change type", rfl⟩
  · intro task rest rngs' idx acc upd err hterm hemp hat
    rw [schedule_tasks_loop_cons, if_neg (by simp [hterm]), if_neg (by simp [hemp]), hat]

/-- C6: in `schedule_tasks`, as soon as some (non-terminal) task in the pass
finds the capacity-eligible executor set empty, the loop breaks: the result is
exactly the state and the allocations and task updates accumulated so far, and
no later task is attempted; in particular with a single executor already
holding 20 allocations, any task list produces an empty placement result and
the indexes — the unallocated index included — are unchanged. -/
theorem C6_saturation_break :
    (∀ (task : Task) (rest : List Task) (rngs : List Nat) (indexes : InMemoryState)
        (acc : List Allocation) (upd : List Task),
      task.outcome.is_terminal = false →
      capacity_eligible indexes = [] →
      schedule_tasks_loop (task :: rest) rngs indexes acc upd = (indexes, acc, upd)) ∧
      (∀ (tasks : List Task) (rngs : List Nat) (indexes : InMemoryState)
          (e : ExecutorId) (m : ExecutorMetadata) (l : List Allocation),
        indexes.executors = [(e, m)] →
        alist_get indexes.allocations_by_executor e = some l →
        l.length = MAX_ALLOCATIONS_PER_EXECUTOR →
        schedule_tasks tasks indexes rngs =
          .ok (indexes,
            { new_allocations := [], remove_allocations := [], updated_tasks := [] })) := by
  constructor
  · intro task rest rngs indexes acc upd hterm hsat
    rw [schedule_tasks_loop_cons, if_neg (by simp [hterm]), if_pos (by simp [hsat])]
  · intro tasks rngs indexes e m l hexec halist hlen
    have hsat : capacity_eligible indexes = [] := by
      unfold capacity_eligible
      rw [hexec]
      simp [alloc_count, halist, hlen, MAX_ALLOCATIONS_PER_EXECUTOR]
    rcases schedule_tasks_cases tasks indexes rngs with ⟨hnil, heq⟩ | ⟨hnil, heq⟩
    · rw [hexec] at hnil
      exact absurd hnil (by simp)
    · rw [heq, schedule_tasks_loop_saturated tasks rngs indexes [] [] hsat]

/-- C7: `invoke` on `ExecutorAdded` and `ExecutorRemoved` always returns a
delta with empty `remove_executors` and empty `remove_allocations`; and when
the unallocated snapshot resolves to no tasks, or the executor map is empty,
the entire delta is empty and the indexes are unchanged. -/
theorem C7_executor_event_delta (indexes : InMemoryState) (rngs : List Nat)
    (change : ChangeType) (id : ExecutorId)
    (hchange : change = ChangeType.ExecutorAdded id ∨ change = ChangeType.ExecutorRemoved id) :
    ∃ indexes' req, invoke change indexes rngs = .ok (indexes', req) ∧
      req.remove_executors = [] ∧
      req.remove_allocations = [] ∧
      ((resolved_tasks indexes = [] ∨ indexes.executors = []) →
        req.new_allocations = [] ∧ req.updated_tasks = [] ∧ indexes' = indexes) := by
  have key : ∃ (indexes' : InMemoryState) (r : TaskPlacementResult),
      allocate indexes rngs = .ok (indexes', r) ∧ r.remove_allocations = [] ∧
        ((resolved_tasks indexes = [] ∨ indexes.executors = []) →
          r.new_allocations = [] ∧ r.updated_tasks = [] ∧ indexes' = indexes) := by
    rcases allocate_cases indexes rngs with ⟨hres, heq⟩ | ⟨hres, heq⟩
    · exact ⟨indexes, _, heq, rfl, fun _ => ⟨rfl, rfl, rfl⟩⟩
    · rcases schedule_tasks_cases (resolved_tasks indexes) indexes rngs with
        ⟨hnil, heq2⟩ | ⟨hnil, heq2⟩
      · exact ⟨indexes, _, by rw [heq, heq2], rfl, fun _ => ⟨rfl, rfl, rfl⟩⟩
      · refine ⟨_, _, by rw [heq, heq2], rfl, ?_⟩
        intro hor
        cases hor with
        | inl hempty => exact absurd hempty hres
        | inr hempty => exact absurd hempty hnil
  obtain ⟨idx₂, r, hal, hrem, hcond⟩ := key
  cases hchange with
  | inl hc =>
    subst hc
    refine ⟨idx₂,
      { new_allocations := r.new_allocations
        remove_allocations := r.remove_allocations
        updated_tasks := r.updated_tasks
        updated_invocations_states := []
        reduction_tasks := ()
        remove_executors := [] }, ?_, rfl, hrem, ?_⟩
    · rw [invoke_added_eq, hal]
    · intro hor
      exact hcond hor
  | inr hc =>
    subst hc
    refine ⟨idx₂,
      { new_allocations := r.new_allocations
        remove_allocations := r.remove_allocations
        updated_tasks := r.updated_tasks
        updated_invocations_states := []
        reduction_tasks := ()
        remove_executors := [] }, ?_, rfl, hrem, ?_⟩
    · rw [invoke_removed_eq, hal]
    · intro hor
      exact hcond hor

theorem run_queueing_eq (store : StateStore) (task : SystemTask)
    (hhead : store.system_tasks.head? = some task)
    (hw : ¬task.waiting_for_running_invocations = true)
    (hp : store.pending_system_tasks < MAX_PENDING_TASKS) :
    run store =
      some
        (if (store.list_invocations task.namespace_ task.compute_graph_name task.restart_key
              (MAX_PENDING_TASKS - store.pending_system_tasks)).2.isNone then
          [WritePayload.ReplayInvocations task.namespace_ task.compute_graph_name
              task.graph_version
              ((store.list_invocations task.namespace_ task.compute_graph_name task.restart_key
                  (MAX_PENDING_TASKS - store.pending_system_tasks)).1.map Invocation.id)
              (store.list_invocations task.namespace_ task.compute_graph_name task.restart_key
                (MAX_PENDING_TASKS - store.pending_system_tasks)).2] ++
            handle_completion store task.namespace_ task.compute_graph_name
        else
          [WritePayload.ReplayInvocations task.namespace_ task.compute_graph_name
              task.graph_version
              ((store.list_invocations task.namespace_ task.compute_graph_name task.restart_key
                  (MAX_PENDING_TASKS - store.pending_system_tasks)).1.map Invocation.id)
              (store.list_invocations task.namespace_ task.compute_graph_name task.restart_key
                (MAX_PENDING_TASKS - store.pending_system_tasks)).2]) := by
  rw [run_some_eq store task hhead, if_neg hw, if_neg (not_le_of_lt hp),
    queue_invocations_of_le store task store.pending_system_tasks (le_of_lt hp)]
  cases (store.list_invocations task.namespace_ task.compute_graph_name task.restart_key
    (MAX_PENDING_TASKS - store.pending_system_tasks)).2.isNone <;> rfl

/-- C4: one replay-driver iteration respects backpressure — when the pending
count `p` read in the iteration is at least `MAX_PENDING_TASKS` (10), no
`ReplayInvocations` invocation ids are emitted at all; and when `p` is below
the bound, at most `MAX_PENDING_TASKS - p` invocation ids are emitted, so `p`
plus the emitted count never exceeds `MAX_PENDING_TASKS`. The hypothesis is
the state-store listing contract: `list_invocations` returns at most `limit`
items. -/
theorem C4_backpressure (store : StateStore) (writes : List WritePayload)
    (hlimit : ∀ ns g rk lim, ((store.list_invocations ns g rk lim).1.length ≤ lim))
    (hrun : run store = some writes) :
    (MAX_PENDING_TASKS ≤ store.pending_system_tasks → replay_invocation_count writes = 0) ∧
      (store.pending_system_tasks < MAX_PENDING_TASKS →
        store.pending_system_tasks + replay_invocation_count writes ≤ MAX_PENDING_TASKS) := by
  cases hhead : store.system_tasks.head? with
  | none =>
    rw [run_none_eq store hhead] at hrun
    simp only [Option.some.injEq] at hrun
    subst hrun
    exact ⟨fun _ => rfl, fun h => by rw [replay_invocation_count, Nat.add_zero]; exact le_of_lt h⟩
  | some task =>
    by_cases hw : task.waiting_for_running_invocations = true
    · rw [run_some_eq store task hhead, if_pos hw] at hrun
      simp only [Option.some.injEq] at hrun
      subst hrun
      refine ⟨fun _ => handle_completion_no_replay store _ _, fun h => ?_⟩
      rw [handle_completion_no_replay store _ _, Nat.add_zero]
      exact le_of_lt h
    · by_cases hp : store.pending_system_tasks ≥ MAX_PENDING_TASKS
      · rw [run_some_eq store task hhead, if_neg hw, if_pos hp] at hrun
        simp only [Option.some.injEq] at hrun
        subst hrun
        exact ⟨fun _ => rfl, fun h => absurd hp (not_le_of_lt h)⟩
      · have hlt : store.pending_system_tasks < MAX_PENDING_TASKS := lt_of_not_ge hp
        rw [run_queueing_eq store task hhead hw hlt] at hrun
        simp only [Option.some.injEq] at hrun
        set L := store.list_invocations task.namespace_ task.compute_graph_name
          task.restart_key (MAX_PENDING_TASKS - store.pending_system_tasks) with hL
        have hids : (L.1.map Invocation.id).length ≤
            MAX_PENDING_TASKS - store.pending_system_tasks := by
          rw [List.length_map, hL]
          exact hlimit _ _ _ _
        have hcount : replay_invocation_count writes ≤
            MAX_PENDING_TASKS - store.pending_system_tasks := by
          rw [← hrun]
          by_cases haq : L.2.isNone = true
          · rw [if_pos haq, replay_invocation_count_append,
              handle_completion_no_replay store _ _]
            simp only [replay_invocation_count, Nat.add_zero]
            exact hids
          · rw [if_neg haq]
            simp only [replay_invocation_count, Nat.add_zero]
            exact hids
        refine ⟨fun hge => absurd hge hp, fun _ => ?_⟩
        calc store.pending_system_tasks + replay_invocation_count writes ≤
            store.pending_system_tasks + (MAX_PENDING_TASKS - store.pending_system_tasks) :=
              Nat.add_le_add_left hcount _
          _ = MAX_PENDING_TASKS := Nat.add_sub_cancel' (le_of_lt hlt)

/-- C8: `handle_completion` re-reads the system task; when the task is found
it emits exactly one `RemoveSystemTask` write if its running-invocation count
is zero, exactly one `UpdateSystemTask(waiting_for_running_invocations=true)`
write if the count is nonzero and the flag is still false, and no write at all
if the count is nonzero and the flag is already set (idempotence). -/
theorem C8_handle_completion (store : StateStore) (ns g : String) (task : SystemTask)
    (hget : store.get_system_task ns g = some task) :
    (task.num_running_invocations = 0 →
        handle_completion store ns g =
          [WritePayload.RemoveSystemTask task.namespace_ task.compute_graph_name]) ∧
      (task.num_running_invocations ≠ 0 → task.waiting_for_running_invocations = false →
        handle_completion store ns g =
          [WritePayload.UpdateSystemTask task.namespace_ task.compute_graph_name true]) ∧
      (task.num_running_invocations ≠ 0 → task.waiting_for_running_invocations = true →
        handle_completion store ns g = []) := by
  have hc : handle_completion store ns g =
      if (task.num_running_invocations == 0) = true then
        [WritePayload.RemoveSystemTask task.namespace_ task.compute_graph_name]
      else
        if (!task.waiting_for_running_invocations) = true then
          [WritePayload.UpdateSystemTask task.namespace_ task.compute_graph_name true]
        else
          [] := by
    unfold handle_completion
    rw [hget]
  refine ⟨?_, ?_, ?_⟩
  · intro h0
    rw [hc, if_pos (by simp [h0])]
  · intro h0 hflag
    rw [hc, if_neg (by simp [h0]), if_pos (by simp [hflag])]
  · intro h0 hflag
    rw [hc, if_neg (by simp [h0]), if_neg (by simp [hflag])]

/-- C9: the unsigned subtraction `MAX_PENDING_TASKS - pending_tasks` in
`queue_invocations` never underflows: `run` never hits the panic case (it is
total, returning `some`), because `queue_invocations` is only reached after
the `pending_tasks >= MAX_PENDING_TASKS` early return; and at every reachable
call site the checked subtraction succeeds with a strictly positive listing
limit. -/
theorem C9_no_underflow (store : StateStore) :
    (run store).isSome = true ∧
      (∀ (task : SystemTask) (p : Nat), p < MAX_PENDING_TASKS →
        ∃ limit, checked_sub MAX_PENDING_TASKS p = some limit ∧ 0 < limit ∧
          (queue_invocations store task p).isSome = true) := by
  constructor
  · cases hhead : store.system_tasks.head? with
    | none => rw [run_none_eq store hhead]; rfl
    | some task =>
      rw [run_some_eq store task hhead]
      by_cases hw : task.waiting_for_running_invocations = true
      · rw [if_pos hw]; rfl
      · rw [if_neg hw]
        by_cases hp : store.pending_system_tasks ≥ MAX_PENDING_TASKS
        · rw [if_pos hp]; rfl
        · rw [if_neg hp]
          rw [queue_invocations_of_le store task store.pending_system_tasks
            (le_of_lt (lt_of_not_ge hp))]
          cases (store.list_invocations task.namespace_ task.compute_graph_name
            task.restart_key (MAX_PENDING_TASKS - store.pending_system_tasks)).2.isNone <;> rfl
  · intro task p hlt
    refine ⟨MAX_PENDING_TASKS - p, ?_, Nat.sub_pos_of_lt hlt, ?_⟩
    · unfold checked_sub
      rw [if_pos (le_of_lt hlt)]
    · rw [queue_invocations_of_le store task p (le_of_lt hlt)]
      rfl

/-- C10: completing an already-removed system task is a successful no-op —
when `get_system_task` finds nothing, `handle_completion` emits no write at
all (and in the embedding it is total, mirroring the `Ok(())` return). -/
theorem C10_handle_completion_missing (store : StateStore) (ns g : String)
    (hget : store.get_system_task ns g = none) :
    handle_completion store ns g = [] := by
  unfold handle_completion
  rw [hget]

/-! ### Concrete scenarios for the witnesses -/

/-- Executor `e1` with no function allowlist. -/
def wMeta : ExecutorMetadata := { id := "e1", function_allowlist := none }

/-- A pending task for function `f` of graph `g` version 1. -/
def wTask : Task :=
  { id := "t1", namespace_ := "ns", compute_graph_name := "g", compute_fn_name := "f",
    invocation_id := "i1", graph_version := 1, status := TaskStatus.Pending,
    outcome := TaskOutcome.Unknown }

/-- The node for function `f`. -/
def wNode : Node := { name := "f" }

/-- Graph version 1 of `g` with the single node `f`. -/
def wCgv : ComputeGraphVersion :=
  { namespace_ := "ns", compute_graph_name := "g", version := 1, nodes := [("f", wNode)] }

/-- State with one free executor and one unallocated pending task. -/
def wIndexes : InMemoryState :=
  { executors := [("e1", wMeta)]
    allocations_by_executor := []
    tasks := [(wTask.key, wTask)]
    unallocated_tasks := [UnallocatedTaskId.new wTask]
    compute_graph_versions := [(wTask.key_compute_graph_version, wCgv)] }

/-- The allocation the pass produces for `wTask` on `e1`. -/
def wAlloc : Allocation :=
  { namespace_ := "ns", compute_graph := "g", compute_fn := "f", invocation_id := "i1",
    task_id := "t1", executor_id := "e1" }

/-- The task after allocation. -/
def wTaskRunning : Task := { wTask with status := TaskStatus.Running }

/-- State after the pass: allocation recorded, task running, unallocated index
empty. -/
def wIndexesAfter : InMemoryState :=
  { executors := [("e1", wMeta)]
    allocations_by_executor := [("e1", [wAlloc])]
    tasks := [(wTask.key, wTaskRunning)]
    unallocated_tasks := []
    compute_graph_versions := [(wTask.key_compute_graph_version, wCgv)] }

/-- The delta the pass emits. -/
def wReq : SchedulerUpdateRequest :=
  { new_allocations := [wAlloc], remove_allocations := [], updated_tasks := [wTaskRunning],
    updated_invocations_states := [], reduction_tasks := (), remove_executors := [] }

/-- State like `wIndexes` but with no compute-graph version registered, so
`allocate_task` fails for the task. -/
def wBadIndexes : InMemoryState :=
  { executors := [("e1", wMeta)]
    allocations_by_executor := []
    tasks := [(wTask.key, wTask)]
    unallocated_tasks := [UnallocatedTaskId.new wTask]
    compute_graph_versions := [] }

/-- State with a single executor already saturated at 20 allocations. -/
def wSatIndexes : InMemoryState :=
  { executors := [("e1", wMeta)]
    allocations_by_executor := [("e1", List.replicate 20 wAlloc)]
    tasks := [(wTask.key, wTask)]
    unallocated_tasks := [UnallocatedTaskId.new wTask]
    compute_graph_versions := [(wTask.key_compute_graph_version, wCgv)] }

/-- State with one executor and no tasks at all. -/
def wEmptyIndexes : InMemoryState :=
  { executors := [("e1", wMeta)]
    allocations_by_executor := []
    tasks := []
    unallocated_tasks := []
    compute_graph_versions := [] }

/-- An active replay task with nothing running. -/
def wSysTask : SystemTask :=
  { namespace_ := "ns", compute_graph_name := "g", graph_version := 2, restart_key := none,
    num_running_invocations := 0, waiting_for_running_invocations := false }

/-- Store snapshot: one active system task, 3 pending system tasks, a listing
that returns at most two invocations and an exhausted cursor. -/
def wStore : StateStore :=
  { system_tasks := [wSysTask]
    pending_system_tasks := 3
    list_invocations := fun _ _ _ lim => (List.replicate (min lim 2) { id := "i1" }, none)
    get_system_task := fun _ _ => some wSysTask }

/-- The writes one iteration emits on `wStore`. -/
def wRunWrites : List WritePayload :=
  [WritePayload.ReplayInvocations "ns" "g" 2 ["i1", "i1"] none,
    WritePayload.RemoveSystemTask "ns" "g"]

/-- Store snapshot with no system task at all. -/
def wEmptyStore : StateStore :=
  { system_tasks := []
    pending_system_tasks := 0
    list_invocations := fun _ _ _ _ => ([], none)
    get_system_task := fun _ _ => none }

/-! ### Witnesses -/

/-- Witness for C1: the one-executor, one-task pass allocates and stays within
capacity. -/
theorem C1_invoke_capacity_witness :
    invoke (ChangeType.ExecutorAdded "x") wIndexes [0] = .ok (wIndexesAfter, wReq) ∧
      alloc_count wIndexesAfter "e1" ≤ MAX_ALLOCATIONS_PER_EXECUTOR := by
  have hwf : ∀ k m, (k, m) ∈ wIndexes.executors → m.id = k := by
    intro k m hm
    simp only [wIndexes, List.mem_singleton, Prod.mk.injEq] at hm
    rw [hm.2, hm.1]
    rfl
  have hcap : ∀ e, alloc_count wIndexes e ≤ MAX_ALLOCATIONS_PER_EXECUTOR := by
    intro e
    simp [wIndexes, alloc_count, alist_get]
  exact ⟨rfl,
    C1_invoke_capacity (ChangeType.ExecutorAdded "x") wIndexes wIndexesAfter [0] wReq
      hwf hcap rfl "e1"⟩

/-- Witness for C2: tombstoning `e1` after the pass re-emits the task as
Pending. -/
theorem C2_tombstone_witness : wTask.status = TaskStatus.Pending := by
  obtain ⟨req, heq, hnew, hrexec, hrall, hupd, hpend⟩ := C2_tombstone wIndexesAfter "e1" []
  apply hpend
  rw [hupd]
  decide

/-- Witness for C3: the produced allocation was built for `wTask` — the only
task of the snapshot — and conforms to the (absent) allowlist of `e1` at
`wTask`'s own graph version. -/
theorem C3_allowlist_respect_witness :
    invoke (ChangeType.ExecutorAdded "x") wIndexes [0] = .ok (wIndexesAfter, wReq) ∧
      wTask ∈ resolved_tasks wIndexes ∧
      AllocMatchesTask wIndexes.executors wIndexes.compute_graph_versions wTask wAlloc := by
  obtain ⟨task, hmem, hmatch⟩ :=
    C3_allowlist_respect (ChangeType.ExecutorAdded "x") wIndexes wIndexesAfter [0] wReq rfl
      wAlloc (by decide)
  have htask : task = wTask := by
    have hres : resolved_tasks wIndexes = [wTask] := rfl
    rw [hres, List.mem_singleton] at hmem
    exact hmem
  subst htask
  exact ⟨rfl, hmem, hmatch⟩

/-- Witness for C4: on `wStore` (3 pending), the iteration emits 2 invocation
ids and 3 + 2 stays at or below 10. -/
theorem C4_backpressure_witness :
    run wStore = some wRunWrites ∧
      wStore.pending_system_tasks + replay_invocation_count wRunWrites ≤
        MAX_PENDING_TASKS := by
  have hlimit : ∀ ns g rk lim, ((wStore.list_invocations ns g rk lim).1.length ≤ lim) := by
    intro ns g rk lim
    simp only [wStore, List.length_replicate]
    omega
  exact ⟨rfl, (C4_backpressure wStore wRunWrites hlimit rfl).2 (by decide)⟩

/-- Witness for C5: a task whose graph version is missing makes
`allocate_task` error, and the loop just moves on. -/
theorem C5_error_iff_witness :
    wTask.outcome.is_terminal = false ∧
      (capacity_eligible wBadIndexes).isEmpty = false ∧
      allocate_task wTask wBadIndexes (capacity_eligible wBadIndexes)
          (([] : List Nat).headD 0) = .error "compute graph not found" ∧
      schedule_tasks_loop [wTask] [] wBadIndexes [] [] =
        schedule_tasks_loop [] ([] : List Nat).tail wBadIndexes [] [] :=
  ⟨rfl, rfl, rfl,
    (C5_error_iff ChangeType.Other wBadIndexes []).2 wTask [] [] wBadIndexes [] []
      "compute graph not found" rfl rfl rfl⟩

/-- Witness for C6: a saturated executor makes the pass a no-op. -/
theorem C6_saturation_break_witness :
    wTask.outcome.is_terminal = false ∧
      capacity_eligible wSatIndexes = [] ∧
      schedule_tasks_loop [wTask] [0] wSatIndexes [] [] = (wSatIndexes, [], []) ∧
      schedule_tasks [wTask] wSatIndexes [0] =
        .ok (wSatIndexes,
          { new_allocations := [], remove_allocations := [], updated_tasks := [] }) :=
  ⟨rfl, by decide,
    C6_saturation_break.1 wTask [] [0] wSatIndexes [] [] rfl (by decide),
    C6_saturation_break.2 [wTask] [0] wSatIndexes "e1" wMeta (List.replicate 20 wAlloc)
      rfl rfl rfl⟩

/-- Witness for C7: an executor event on a state with no unallocated tasks
returns Ok. -/
theorem C7_executor_event_delta_witness :
    resolved_tasks wEmptyIndexes = [] ∧
      (invoke (ChangeType.ExecutorAdded "e9") wEmptyIndexes []).toOption.isSome = true := by
  obtain ⟨indexes', req, heq, hrest⟩ :=
    C7_executor_event_delta wEmptyIndexes [] (ChangeType.ExecutorAdded "e9") "e9" (Or.inl rfl)
  exact ⟨rfl, by rw [heq]; rfl⟩

/-- Witness for C8: on `wStore` the re-read task has nothing running, so
completion removes it. -/
theorem C8_handle_completion_witness :
    wStore.get_system_task "ns" "g" = some wSysTask ∧
      handle_completion wStore "ns" "g" = [WritePayload.RemoveSystemTask "ns" "g"] :=
  ⟨rfl, (C8_handle_completion wStore "ns" "g" wSysTask rfl).1 rfl⟩

/-- Witness for C9: with 3 pending, the checked subtraction yields 7 and the
iteration is total. -/
theorem C9_no_underflow_witness :
    (run wStore).isSome = true ∧
      checked_sub MAX_PENDING_TASKS 3 = some 7 ∧
      (queue_invocations wStore wSysTask 3).isSome = true := by
  obtain ⟨limit, hsub, hpos, hq⟩ := (C9_no_underflow wStore).2 wSysTask 3 (by decide)
  exact ⟨(C9_no_underflow wStore).1, by decide, hq⟩

/-- Witness for C10: completion on an empty store is a no-op. -/
theorem C10_handle_completion_missing_witness :
    wEmptyStore.get_system_task "ns" "g" = none ∧
      handle_completion wEmptyStore "ns" "g" = [] :=
  ⟨rfl, C10_handle_completion_missing wEmptyStore "ns" "g" rfl⟩

end Indexify
